import Mathlib

/-!
Verification of the itwillsync core: shallow embedding of the hub registry,
internal control API, dashboard auth / rate limiting, preview collector and
session server protocol, with theorems about the behaviour each claim of the
specification describes.  Terminal byte strings are modelled as `List Char`
(JavaScript strings are sequences of UTF-16 code units; all inputs of
interest here are plain characters).
-/

namespace ItWillSync

/-- The ESC character (0x1b). -/
def escC : Char := '\x1b'

/-- The BEL character (0x07). -/
def belC : Char := '\x07'

/-! ## Attention detector — `containsAttentionSignal` (preview-collector.ts)

The TypeScript function runs three regex tests and one regex replacement:

* test for an OSC 9 opener `ESC ] 9 ;` whose lookahead is not an iTerm
  progress bar `4;`,
* substring tests for `ESC ] 9 9 ;` and `ESC ] 7 7 7 ;`,
* global excision of complete OSC sequences
  (`ESC ]` body terminated by BEL or by `ESC \`), then a BEL membership test.

Each scanner below reproduces leftmost scanning with one-position advance on
a failed match attempt, exactly the behaviour of `RegExp.test` / global
`String.replace` on these patterns (the body character class excludes both
BEL and ESC, so the regexes admit no other backtracking behaviour). -/

/-- True when the text begins with the iTerm progress-bar discriminator
`4;`, the negative lookahead of the OSC 9 regex. -/
def isProgTail : List Char → Bool
  | c1 :: c2 :: _ => c1 == '4' && c2 == ';'
  | _ => false

/-- True when the pattern `ESC ] 9 ;` not followed by `4;` matches at the
start of the text. -/
def osc9At : List Char → Bool
  | c1 :: c2 :: c3 :: c4 :: rest =>
      c1 == '\x1b' && c2 == ']' && c3 == '9' && c4 == ';' &&
        !(isProgTail rest)
  | _ => false

/-- A regex test `pattern.test(data)`: true iff the pattern recognizer `p`
accepts some suffix of the text (the pattern matches at some position). -/
def scanAny (p : List Char → Bool) : List Char → Bool
  | [] => false
  | c :: t => p (c :: t) || scanAny p t

/-- The regex test for an OSC 9 opener that is not an iTerm progress bar:
true iff the pattern matches at some position of the text. -/
def hasOsc9NonProgress : List Char → Bool :=
  scanAny osc9At

/-- True when `ESC ] 9 9 ;` matches at the start of the text. -/
def osc99At : List Char → Bool
  | c1 :: c2 :: c3 :: c4 :: c5 :: _ =>
      c1 == '\x1b' && c2 == ']' && c3 == '9' && c4 == '9' && c5 == ';'
  | _ => false

/-- The regex test for the substring `ESC ] 9 9 ;` (OSC 99). -/
def hasOsc99 : List Char → Bool :=
  scanAny osc99At

/-- True when `ESC ] 7 7 7 ;` matches at the start of the text. -/
def osc777At : List Char → Bool
  | c1 :: c2 :: c3 :: c4 :: c5 :: c6 :: _ =>
      c1 == '\x1b' && c2 == ']' && c3 == '7' && c4 == '7' && c5 == '7' &&
        c6 == ';'
  | _ => false

/-- The regex test for the substring `ESC ] 7 7 7 ;` (OSC 777). -/
def hasOsc777 : List Char → Bool :=
  scanAny osc777At

/-- One-pass scanner for the global excision of complete OSC sequences
(the replacement with the pattern `ESC ]`, body, BEL-or-ST terminator).
The second argument is `none` outside any candidate sequence, and
`some acc` after an `ESC ]` opener, with `acc` the body characters read so
far in reverse.  The regex body class excludes BEL and ESC, so a candidate
ends at the first BEL (match), at `ESC \` (match), at any other ESC
(failed attempt: the regex engine advances one position past the opener,
re-emitting the opener and body — none of which contain ESC — and rescans
from the failing ESC), or at the end of input (failed attempt, everything
kept). -/
def stripOscAux : List Char → Option (List Char) → List Char
  | [], none => []
  | [], some acc => '\x1b' :: ']' :: acc.reverse
  | '\x1b' :: ']' :: t2, none => stripOscAux t2 (some [])
  | c :: t, none => c :: stripOscAux t none
  | '\x07' :: t, some _ => stripOscAux t none
  | '\x1b' :: '\\' :: r, some _ => stripOscAux r none
  | '\x1b' :: ']' :: t2, some acc =>
      ('\x1b' :: ']' :: acc.reverse) ++ stripOscAux t2 (some [])
  | '\x1b' :: t, some acc =>
      ('\x1b' :: ']' :: acc.reverse) ++ '\x1b' :: stripOscAux t none
  | c :: t, some acc => stripOscAux t (some (c :: acc))

/-- Global excision of complete OSC sequences, the replacement
`data.replace(OSC-regex, "")` applied before the standalone-BEL test. -/
def stripOscList (l : List Char) : List Char :=
  stripOscAux l none

/-- `containsAttentionSignal` from preview-collector.ts: true when the data
holds a non-progress OSC 9, an OSC 99, an OSC 777, or a BEL that survives
the excision of complete OSC sequences. -/
def containsAttentionSignal (data : List Char) : Bool :=
  hasOsc9NonProgress data || hasOsc99 data || hasOsc777 data ||
    (stripOscList data).contains '\x07'

/-! ## ANSI stripping — `stripAnsi` (preview-collector.ts)

The TypeScript function chains six global replacements, in this order:
CSI sequences `ESC [ [0-9;?]* letter`, OSC sequences (same pattern as the
excision above), charset designators `ESC [()#] alnum`, keypad escapes
`ESC [>=<]`, single-letter escapes `ESC letter`, and bare carriage
returns.  Each replacement is embedded as its own pass below. -/

/-- True for characters of the CSI parameter class `[0-9;?]`. -/
def isCsiParam (c : Char) : Bool :=
  c.isDigit || c = ';' || c = '?'

/-- One-pass scanner for the global excision of CSI sequences
`ESC [ [0-9;?]* [a-zA-Z]`.  State `some acc` is inside a candidate opened
by `ESC [`; the parameter class excludes ESC, so a failed attempt re-emits
the opener and parameters and rescans from the failing character. -/
def stripCsiAux : List Char → Option (List Char) → List Char
  | [], none => []
  | [], some acc => '\x1b' :: '[' :: acc.reverse
  | '\x1b' :: '[' :: t2, none => stripCsiAux t2 (some [])
  | c :: t, none => c :: stripCsiAux t none
  | '\x1b' :: '[' :: t2, some acc =>
      ('\x1b' :: '[' :: acc.reverse) ++ stripCsiAux t2 (some [])
  | '\x1b' :: t, some acc =>
      ('\x1b' :: '[' :: acc.reverse) ++ '\x1b' :: stripCsiAux t none
  | c :: t, some acc =>
      if isCsiParam c then stripCsiAux t (some (c :: acc))
      else if c.isAlpha then stripCsiAux t none
      else ('\x1b' :: '[' :: acc.reverse) ++ c :: stripCsiAux t none

/-- Global excision of CSI sequences. -/
def stripCsi (l : List Char) : List Char :=
  stripCsiAux l none

/-- Global excision of charset-designator escapes `ESC [()#] [A-Za-z0-9]`. -/
def stripTwoByte : List Char → List Char
  | [] => []
  | '\x1b' :: c :: d :: t =>
      if (c = '(' ∨ c = ')' ∨ c = '#') ∧ (d.isAlpha ∨ d.isDigit) then
        stripTwoByte t
      else '\x1b' :: stripTwoByte (c :: d :: t)
  | c :: t => c :: stripTwoByte t

/-- Global excision of keypad escapes `ESC [>=<]`. -/
def stripEscPunct : List Char → List Char
  | [] => []
  | '\x1b' :: c :: t =>
      if c = '>' ∨ c = '=' ∨ c = '<' then stripEscPunct t
      else '\x1b' :: stripEscPunct (c :: t)
  | c :: t => c :: stripEscPunct t

/-- Global excision of single-letter escapes `ESC [A-Za-z]`. -/
def stripEscLetter : List Char → List Char
  | [] => []
  | '\x1b' :: c :: t =>
      if c.isAlpha then stripEscLetter t
      else '\x1b' :: stripEscLetter (c :: t)
  | c :: t => c :: stripEscLetter t

/-- `stripAnsi` from preview-collector.ts: the six replacements chained in
source order. -/
def stripAnsi (l : List Char) : List Char :=
  ((((stripCsi l |> stripOscList) |> stripTwoByte) |> stripEscPunct)
      |> stripEscLetter).filter (fun c => c != '\r')

/-! ## Preview buffer — `PreviewCollector.handleData` (preview-collector.ts)

Per-session state: the preview lines and the incomplete-line carry.  On a
`data` frame the collector strips ANSI codes, appends to the carry, splits
on newlines keeping the last fragment as the new carry, and for each
complete line trims trailing whitespace, drops it when empty, truncates to
80 characters with a `...` suffix otherwise pushing it verbatim, finally
keeping only the last 5 preview lines. -/

/-- Max lines to keep per session preview (`MAX_PREVIEW_LINES`). -/
def MAX_PREVIEW_LINES : Nat := 5

/-- Max chars per preview line before truncation (`MAX_LINE_LENGTH`). -/
def MAX_LINE_LENGTH : Nat := 80

/-- Per-session preview state: preview lines and incomplete-line carry. -/
structure PreviewState where
  lines : List (List Char)
  rawBuffer : List Char
  deriving DecidableEq, Repr

/-- The initial, empty per-session preview state. -/
def initPreview : PreviewState := ⟨[], []⟩

/-- JavaScript `String.prototype.trimEnd`: removes trailing whitespace. -/
def trimEnd (l : List Char) : List Char :=
  (l.reverse.dropWhile Char.isWhitespace).reverse

/-- Processes one complete line: trim trailing whitespace, drop when empty,
truncate to 80 characters adding a `...` suffix when longer. -/
def processLine (lines : List (List Char)) (line : List Char) :
    List (List Char) :=
  let trimmed := trimEnd line
  if trimmed.length > 0 then
    lines ++ [if trimmed.length > MAX_LINE_LENGTH then
                trimmed.take MAX_LINE_LENGTH ++ ['.', '.', '.']
              else trimmed]
  else lines

/-- `handleData`, restricted to its buffer effect: strip ANSI codes, append
to the carry, split on newlines (the last fragment becomes the new carry),
process each complete line, and keep only the last 5 preview lines. -/
def handleData (st : PreviewState) (data : List Char) : PreviewState :=
  let clean := stripAnsi data
  let parts := (st.rawBuffer ++ clean).splitOn '\n'
  let carry := parts.getLast?.getD []
  let complete := parts.dropLast
  let pushed := complete.foldl processLine st.lines
  let kept := if pushed.length > MAX_PREVIEW_LINES then
                pushed.drop (pushed.length - MAX_PREVIEW_LINES)
              else pushed
  ⟨kept, carry⟩

/-! ## Rate limiter — `RateLimiter` (auth.ts) and the dashboard auth path
(server.ts `createDashboardServer`)

Per client IP the limiter keeps a failed-attempt count and a block-until
timestamp.  The dashboard server handles a non-asset request by first
asking `isBlocked` (answering 429 when blocked), then comparing the token
(recording a failure and answering 401 on mismatch, clearing the IP and
processing the request on success).  Timestamps are milliseconds. -/

/-- A rate limiter entry: failed-attempt count and block-until timestamp. -/
structure RLEntry where
  count : Nat
  blockedUntil : Nat
  deriving DecidableEq, Repr

/-- The rate limiter table, keyed by client IP. -/
def RLTable : Type := String → Option RLEntry

/-- The empty rate limiter table. -/
def rlEmpty : RLTable := fun _ => none

/-- `maxAttempts` default of the RateLimiter constructor. -/
def RL_MAX_ATTEMPTS : Nat := 5

/-- `blockDurationMs` default of the RateLimiter constructor. -/
def RL_BLOCK_MS : Nat := 60000

/-- `RateLimiter.isBlocked`: true while the block timestamp lies in the
future; an expired block whose count reached the threshold is garbage
collected.  Returns the answer together with the updated table. -/
def isBlockedStep (s : RLTable) (ip : String) (now : Nat) :
    Bool × RLTable :=
  match s ip with
  | none => (false, s)
  | some e =>
      if now < e.blockedUntil then (true, s)
      else if RL_MAX_ATTEMPTS ≤ e.count then
        (false, fun j => if j = ip then none else s j)
      else (false, s)

/-- `RateLimiter.recordFailure`: increments the count and, once it reaches
the threshold, stamps a block of `RL_BLOCK_MS` from now. -/
def recordFailure (s : RLTable) (ip : String) (now : Nat) : RLTable :=
  let e := (s ip).getD ⟨0, 0⟩
  let e' : RLEntry :=
    if RL_MAX_ATTEMPTS ≤ e.count + 1 then ⟨e.count + 1, now + RL_BLOCK_MS⟩
    else ⟨e.count + 1, e.blockedUntil⟩
  fun j => if j = ip then some e' else s j

/-- `RateLimiter.clearIP`: removes the IP's entry. -/
def clearIP (s : RLTable) (ip : String) : RLTable :=
  fun j => if j = ip then none else s j

/-- Outcome of a dashboard request or WebSocket upgrade. -/
inductive DashResp where
  | ok
  | unauthorized
  | tooMany
  deriving DecidableEq, Repr

/-- The dashboard server's auth path for a non-asset request or upgrade
from `ip` at time `now`: 429 while blocked, otherwise 401 recording a
failure when the token comparison fails, otherwise 200 clearing the IP. -/
def processRequest (s : RLTable) (ip : String) (tokenOk : Bool)
    (now : Nat) : DashResp × RLTable :=
  let b := isBlockedStep s ip now
  if b.1 then (.tooMany, b.2)
  else if tokenOk then (.ok, clearIP b.2 ip)
  else (.unauthorized, recordFailure b.2 ip now)

/-! ## Session registry — `SessionRegistry`

Embedded from the current `SessionRegistry` (the variant with the
heartbeat-first health sweep, in the repository snapshot as
src/unnamed/part_016; the stale copy at src/packages/hub/src/registry.ts
predates the `updateLastSeen` idle-guard and the 20-second sweep skip).
The registry is a map from session id to `SessionInfo`; mutators operate
only when the id exists. -/

/-- Session status. -/
inductive SessionStatus where
  | active
  | idle
  | attention
  deriving DecidableEq, Repr

/-- `SessionInfo` owned by the registry.  `cwd` is optional because the
registration endpoint does not validate it, so a session may be stored
with an undefined working directory. -/
structure SessionInfo where
  name : String
  port : Nat
  token : String
  agent : String
  cwd : Option String
  pid : Nat
  connectedAt : Nat
  lastSeen : Nat
  status : SessionStatus
  deriving DecidableEq, Repr

/-- The registry map, keyed by 16-hex session id. -/
def Registry : Type := String → Option SessionInfo

/-- The empty registry. -/
def regEmpty : Registry := fun _ => none

/-- `register`: stores a fresh entry with both timestamps set to `now` and
status `active`. -/
def register (reg : Registry) (id : String) (name : String) (port : Nat)
    (token : String) (agent : String) (cwd : Option String) (pid : Nat)
    (now : Nat) : Registry :=
  fun j => if j = id then
    some ⟨name, port, token, agent, cwd, pid, now, now, .active⟩
  else reg j

/-- `unregister`: deletes the entry when present. -/
def unregister (reg : Registry) (id : String) : Registry :=
  fun j => if j = id then none else reg j

/-- `rename`: replaces the name when the id exists. -/
def rename (reg : Registry) (id : String) (newName : String) : Registry :=
  match reg id with
  | none => reg
  | some s => fun j => if j = id then some { s with name := newName }
              else reg j

/-- `updateStatus`: replaces the status when the id exists. -/
def updateStatus (reg : Registry) (id : String) (st : SessionStatus) :
    Registry :=
  match reg id with
  | none => reg
  | some s => fun j => if j = id then some { s with status := st }
              else reg j

/-- `updateLastSeen`: stamps `lastSeen` and promotes `idle` to `active`
(any other status, in particular `attention`, is left unchanged). -/
def updateLastSeen (reg : Registry) (id : String) (now : Nat) : Registry :=
  match reg id with
  | none => reg
  | some s =>
      fun j => if j = id then
        some { s with lastSeen := now,
                      status := if s.status = .idle then .active
                                else s.status }
      else reg j

/-- One health-sweep step on a single session: a session heard from within
the last 20 000 ms is trusted alive and not probed; otherwise the process
is probed, a live process demotes `active` to `idle` after more than
30 000 ms of silence, and a dead process removes the session. -/
def sweepSession (now : Nat) (alive : Nat → Bool) (s : SessionInfo) :
    Option SessionInfo :=
  if now - s.lastSeen ≤ 20000 then some s
  else if alive s.pid then
    (if 30000 < now - s.lastSeen ∧ s.status = .active then
       some { s with status := .idle }
     else some s)
  else none

/-- The health-check sweep applied to every registered session. -/
def healthSweep (reg : Registry) (now : Nat) (alive : Nat → Bool) :
    Registry :=
  fun j => (reg j).bind (sweepSession now alive)

/-- The hub operations that can mutate the registry. -/
inductive HubOp where
  | opRegister (id name : String) (port : Nat) (token agent : String)
      (cwd : Option String) (pid now : Nat)
  | opUnregister (id : String)
  | opRename (id newName : String)
  | opHeartbeat (id : String) (now : Nat)
  | opClearAttention (id : String)
  | opAttentionSignal (id : String)
  | opSweep (now : Nat) (alive : Nat → Bool)

/-- Precondition of an operation: a registration uses a fresh id (ids are
random 8-byte tokens, unique for the hub lifetime); every other operation
is unconstrained. -/
def opPre : HubOp → Registry → Prop
  | .opRegister id _ _ _ _ _ _ _, reg => reg id = none
  | _, _ => True

/-- The registry transition function.  `opClearAttention` is the dashboard
`clear-attention` handler (only an `attention` session is set `active`);
`opAttentionSignal` is the preview collector's attention path (only a
non-`attention` session is set `attention`). -/
def hubStep (reg : Registry) : HubOp → Registry
  | .opRegister id name port token agent cwd pid now =>
      register reg id name port token agent cwd pid now
  | .opUnregister id => unregister reg id
  | .opRename id newName => rename reg id newName
  | .opHeartbeat id now => updateLastSeen reg id now
  | .opClearAttention id =>
      match reg id with
      | some s => if s.status = .attention then updateStatus reg id .active
                  else reg
      | none => reg
  | .opAttentionSignal id =>
      match reg id with
      | some s => if s.status = .attention then reg
                  else updateStatus reg id .attention
      | none => reg
  | .opSweep now alive => healthSweep reg now alive

/-! ## Internal control API — `createInternalApi` (internal-api.ts) and the
dashboard `stop-session` handler (server.ts) -/

/-- Events the registry can emit. -/
inductive RegEvent where
  | added (id : String)
  | removed (id : String)
  | updated (id : String)
  deriving DecidableEq, Repr

/-- A registration request body; each field may be absent. -/
structure RegBody where
  name : Option String
  port : Option Nat
  token : Option String
  agent : Option String
  cwd : Option String
  pid : Option Nat
  deriving DecidableEq, Repr

/-- JavaScript falsiness of an optional string field (`undefined` or the
empty string). -/
def jsFalsyStr : Option String → Bool
  | none => true
  | some s => s.isEmpty

/-- JavaScript falsiness of an optional numeric field (`undefined` or 0). -/
def jsFalsyNat : Option Nat → Bool
  | none => true
  | some n => n == 0

/-- The validation test of POST /api/sessions:
`!data.name || !data.port || !data.token || !data.agent || !data.pid`
(`cwd` is not checked). -/
def regBodyInvalid (b : RegBody) : Bool :=
  jsFalsyStr b.name || jsFalsyNat b.port || jsFalsyStr b.token ||
    jsFalsyStr b.agent || jsFalsyNat b.pid

/-- POST /api/sessions: 400 leaving the registry untouched when validation
fails, otherwise 201 registering the body under a fresh id. -/
def postSessions (reg : Registry) (b : RegBody) (id : String) (now : Nat) :
    Nat × Registry :=
  if regBodyInvalid b then (400, reg)
  else (201, register reg id (b.name.getD "") (b.port.getD 0)
          (b.token.getD "") (b.agent.getD "") b.cwd (b.pid.getD 0) now)

/-- PUT /api/sessions/:id/heartbeat: always answers 200 after calling
`updateLastSeen`, which mutates only an existing entry and emits no
event. -/
def heartbeatEndpoint (reg : Registry) (id : String) (now : Nat) :
    Nat × Registry × List RegEvent :=
  (200, updateLastSeen reg id now, [])

/-- POST /api/sessions/:id/stop: 404 for an unknown id; otherwise SIGTERM
is sent to the session's pid and the handler answers 200, unregistering
the session only when sending the signal fails (`killOk = false`). -/
def stopEndpoint (reg : Registry) (id : String) (killOk : Bool) :
    Nat × Registry :=
  match reg id with
  | none => (404, reg)
  | some _ => if killOk then (200, reg) else (200, unregister reg id)

/-- The dashboard `stop-session` message handler: an unknown id produces an
operation-error frame; otherwise SIGTERM is sent and the session is
unregistered only when the signal fails. -/
def dashStopSession (reg : Registry) (id : String) (killOk : Bool) :
    Registry × Bool :=
  match reg id with
  | none => (reg, true)
  | some _ => if killOk then (reg, false) else (unregister reg id, false)

/-! ## Session server protocol — data frames and resume

Modelled from the spec: the current session server (packages/cli/src
server.ts at the specified revision, which frames PTY output as JSON
`data` frames with a running `seq` and answers `resume` requests from the
scrollback buffer) is not part of the snapshot; only its protocol
documentation, its browser client and a stale revision that predates the
framed protocol are.  The definitions below follow §3 and §4.2 of the
spec. -/

/-- Modelled from the spec: a server-to-client `data` frame, carrying the
chunk text and the cumulative character count `seq` as of the end of the
frame. -/
structure DataFrame where
  data : List Char
  seq : Nat
  deriving DecidableEq, Repr

/-- Modelled from the spec: the fan-out of a list of PTY output chunks
into `data` frames, carrying the running character count; `base` counts
the characters emitted before these chunks. -/
def framesFrom (base : Nat) : List (List Char) → List DataFrame
  | [] => []
  | d :: rest => ⟨d, base + d.length⟩ :: framesFrom (base + d.length) rest

/-- Modelled from the spec: the frames emitted for a whole session. -/
def emitFrames (chunks : List (List Char)) : List DataFrame :=
  framesFrom 0 chunks

/-- Scrollback capacity in characters. -/
def SCROLLBACK_MAX : Nat := 50000

/-- The last `n` characters of a list. -/
def takeRightL (n : Nat) (l : List Char) : List Char :=
  l.drop (l.length - n)

/-- Modelled from the spec: the scrollback state of a session server — the
buffered characters (trimmed on the tail to at most 50 000) and the total
number of characters ever emitted. -/
structure Scrollback where
  buf : List Char
  tail : Nat
  deriving DecidableEq, Repr

/-- Modelled from the spec: appending one PTY output chunk to the
scrollback, trimming from the front to the capacity. -/
def sbFeed (st : Scrollback) (d : List Char) : Scrollback :=
  ⟨takeRightL SCROLLBACK_MAX (st.buf ++ d), st.tail + d.length⟩

/-- Modelled from the spec: the scrollback state after a list of chunks. -/
def sbFromChunks (chunks : List (List Char)) : Scrollback :=
  chunks.foldl sbFeed ⟨[], 0⟩

/-- Modelled from the spec: the reply to `resume{lastSeq}` — all buffered
bytes whose sequence numbers exceed `lastSeq` (the byte at 0-based stream
position `p` has sequence number `p + 1`), or the entire remaining buffer
when it has been trimmed past that point. -/
def resumeReply (st : Scrollback) (lastSeq : Nat) : List Char :=
  if st.tail - lastSeq ≤ st.buf.length then
    st.buf.drop (st.buf.length - (st.tail - lastSeq))
  else st.buf

/-! ## Auxiliary predicates and sample data for the theorems -/

/-- Total character count of a list of chunks. -/
def sumLens (chunks : List (List Char)) : Nat :=
  (chunks.map List.length).sum

/-- A byte string made only of iTerm progress-bar OSC 9 frames
(`ESC ] 9 ; 4 ;` body, terminated by BEL or ST, the body free of ESC and
BEL) and of plain characters that are neither ESC nor BEL. -/
inductive ProgOnly : List Char → Prop where
  | nil : ProgOnly []
  | plain (c : Char) (t : List Char) : c ≠ '\x1b' → c ≠ '\x07' →
      ProgOnly t → ProgOnly (c :: t)
  | frame (body term t : List Char) :
      (∀ c ∈ body, c ≠ '\x1b' ∧ c ≠ '\x07') →
      (term = ['\x07'] ∨ term = ['\x1b', '\\']) → ProgOnly t →
      ProgOnly ('\x1b' :: ']' :: '9' :: ';' :: '4' :: ';' ::
        (body ++ (term ++ t)))

/-- A byte string in which every ESC-started OSC sequence is complete: a
concatenation of non-ESC characters and of well-formed OSC sequences
(`ESC ]` body, terminated by BEL or ST, body free of ESC and BEL).  A BEL
appended after such a prefix lies outside every OSC sequence. -/
inductive OscClosed : List Char → Prop where
  | nil : OscClosed []
  | plain (c : Char) (t : List Char) : c ≠ '\x1b' →
      OscClosed t → OscClosed (c :: t)
  | osc (body term t : List Char) :
      (∀ c ∈ body, c ≠ '\x1b' ∧ c ≠ '\x07') →
      (term = ['\x07'] ∨ term = ['\x1b', '\\']) → OscClosed t →
      OscClosed ('\x1b' :: ']' :: (body ++ (term ++ t)))

/-- The preview-buffer invariant: at most 5 lines, none empty, each of at
most 83 characters, a line longer than 80 characters being exactly an
80-character cut followed by the `...` suffix. -/
def previewInv (st : PreviewState) : Prop :=
  st.lines.length ≤ MAX_PREVIEW_LINES ∧
    ∀ l ∈ st.lines, l ≠ [] ∧ l.length ≤ 83 ∧
      (l.length ≤ 80 ∨ (l.length = 83 ∧ l.drop 80 = ['.', '.', '.']))

/-- A sample registered session used by the witnesses. -/
def sampleSession : SessionInfo :=
  ⟨"claude", 7964, "tok", "claude", some "/home/u/proj", 4242, 1000, 1000,
    .active⟩

/-- A one-session registry used by the witnesses. -/
def sampleReg : Registry :=
  fun j => if j = "deadbeefdeadbeef" then some sampleSession else none

/-- The sample session with status `attention`, used by the witnesses. -/
def attnSession : SessionInfo :=
  { sampleSession with status := .attention }

/-- A one-session registry whose session needs attention. -/
def attnReg : Registry :=
  fun j => if j = "deadbeefdeadbeef" then some attnSession else none

/-- A registration body whose only missing field is `cwd`. -/
def cwdlessBody : RegBody :=
  ⟨some "claude", some 7964, some "tok", some "claude", none, some 4242⟩

/-- A registration body missing the `name` field. -/
def namelessBody : RegBody :=
  ⟨none, some 7964, some "tok", some "claude", some "/tmp", some 4242⟩

/-! ## Theorems -/

/-- C9: for every session id not present in the registry,
PUT /api/sessions/:id/heartbeat responds HTTP 200 (never 404) and leaves
the registry completely unchanged, emitting no event. -/
theorem c9_heartbeat_unknown_id (reg : Registry) (id : String) (now : Nat)
    (h : reg id = none) :
    heartbeatEndpoint reg id now = (200, reg, []) := by
  simp [heartbeatEndpoint, updateLastSeen, h]

/-- Witness for C9 at a concrete absent id. -/
theorem c9_heartbeat_unknown_id_witness :
    regEmpty "aaaa" = none ∧
      heartbeatEndpoint regEmpty "aaaa" 5 = (200, regEmpty, []) :=
  ⟨rfl, c9_heartbeat_unknown_id regEmpty "aaaa" 5 rfl⟩

/-- C10: a stop request (internal API POST /api/sessions/:id/stop or
dashboard `stop-session`) whose termination signal succeeds leaves the
registry unchanged; the handlers unregister the session only when sending
the signal fails. -/
theorem c10_stop_success_preserves_registry (reg : Registry) (id : String)
    (s : SessionInfo) (h : reg id = some s) :
    (stopEndpoint reg id true = (200, reg) ∧
      dashStopSession reg id true = (reg, false)) ∧
    (stopEndpoint reg id false = (200, unregister reg id) ∧
      dashStopSession reg id false = (unregister reg id, false)) := by
  simp [stopEndpoint, dashStopSession, h]

/-- Witness for C10 at a concrete registered session. -/
theorem c10_stop_success_preserves_registry_witness :
    sampleReg "deadbeefdeadbeef" = some sampleSession ∧
      stopEndpoint sampleReg "deadbeefdeadbeef" true = (200, sampleReg) ∧
      dashStopSession sampleReg "deadbeefdeadbeef" true =
        (sampleReg, false) :=
  ⟨rfl,
   (c10_stop_success_preserves_registry sampleReg "deadbeefdeadbeef"
      sampleSession rfl).1.1,
   (c10_stop_success_preserves_registry sampleReg "deadbeefdeadbeef"
      sampleSession rfl).1.2⟩

/-- C8 counterexample: a registration body with all fields except `cwd` is
accepted with 201 and registered, while the claim requires 400 for a body
missing any of the six fields including `cwd`. -/
theorem c8_counterexample :
    (postSessions regEmpty cwdlessBody "deadbeefdeadbeef" 1000).1 = 201 ∧
    (postSessions regEmpty cwdlessBody "deadbeefdeadbeef" 1000).1 ≠ 400 ∧
    (postSessions regEmpty cwdlessBody "deadbeefdeadbeef" 1000).2
        "deadbeefdeadbeef" =
      some ⟨"claude", 7964, "tok", "claude", none, 4242, 1000, 1000,
        .active⟩ := by
  refine ⟨by decide, by decide, by decide⟩

/-- C8 amended: POST /api/sessions answers 400 without registering when
`name`, `port`, `token`, `agent` or `pid` is missing (`cwd` is not
validated), and 201 with the session registered when the five validated
fields are present and truthy. -/
theorem c8_register_validation (reg : Registry) (b : RegBody)
    (id : String) (now : Nat) :
    ((b.name = none ∨ b.port = none ∨ b.token = none ∨ b.agent = none ∨
        b.pid = none) → postSessions reg b id now = (400, reg)) ∧
    (regBodyInvalid b = false →
      (postSessions reg b id now).1 = 201 ∧
      (postSessions reg b id now).2 id =
        some ⟨b.name.getD "", b.port.getD 0, b.token.getD "",
          b.agent.getD "", b.cwd, b.pid.getD 0, now, now, .active⟩ ∧
      ∀ j, j ≠ id → (postSessions reg b id now).2 j = reg j) := by
  constructor
  · intro h
    have hinv : regBodyInvalid b = true := by
      rcases h with h | h | h | h | h <;>
        simp [regBodyInvalid, jsFalsyStr, jsFalsyNat, h]
    simp [postSessions, hinv]
  · intro h
    refine ⟨by simp [postSessions, h], by simp [postSessions, h, register],
      fun j hj => by simp [postSessions, h, register, hj]⟩

/-- Witness for C8 amended: the 400 branch at a body missing `name`, the
201 branch at a body whose validated fields are all present. -/
theorem c8_register_validation_witness :
    postSessions regEmpty namelessBody "deadbeefdeadbeef" 7 =
        (400, regEmpty) ∧
      (postSessions regEmpty cwdlessBody "deadbeefdeadbeef" 7).1 = 201 :=
  ⟨(c8_register_validation regEmpty namelessBody "deadbeefdeadbeef" 7).1
      (Or.inl rfl),
   ((c8_register_validation regEmpty cwdlessBody "deadbeefdeadbeef" 7).2
      (by decide)).1⟩

/-- C4: a session whose heartbeat is at most 20 000 ms old is trusted
alive by the health sweep: it is kept unchanged, and the sweep result does
not depend on the process-existence probe, so the session survives even a
probe that would report the process gone. -/
theorem c4_sweep_trusts_recent_heartbeat (reg : Registry) (now : Nat)
    (alive : Nat → Bool) (id : String) (s : SessionInfo)
    (h : reg id = some s) (hrecent : now - s.lastSeen ≤ 20000) :
    healthSweep reg now alive id = some s ∧
    ∀ alive', healthSweep reg now alive' id =
      healthSweep reg now alive id := by
  have h1 : ∀ al : Nat → Bool, healthSweep reg now al id = some s := by
    intro al
    simp [healthSweep, h, sweepSession, hrecent]
    intro hlt
    exact absurd hlt (by omega)
  exact ⟨h1 alive, fun alive' => (h1 alive').trans (h1 alive).symm⟩

/-- Witness for C4: a just-heartbeated session survives a sweep whose
probe reports every process dead. -/
theorem c4_sweep_trusts_recent_heartbeat_witness :
    sampleReg "deadbeefdeadbeef" = some sampleSession ∧
      1000 - sampleSession.lastSeen ≤ 20000 ∧
      healthSweep sampleReg 1000 (fun _ => false) "deadbeefdeadbeef" =
        some sampleSession :=
  ⟨rfl, by decide,
   (c4_sweep_trusts_recent_heartbeat sampleReg 1000 (fun _ => false)
      "deadbeefdeadbeef" sampleSession rfl (by decide)).1⟩

/-- C3: in every registry state, a session's status changes from
`attention` to `active` only through the explicit clear-attention
operation; the heartbeat's only status side-effect is `idle` to `active`,
so a heartbeat received while the status is `attention` merely stamps
`lastSeen` and leaves the status `attention`. -/
theorem c3_attention_cleared_only_explicitly :
    (∀ (reg : Registry) (op : HubOp) (i : String) (s s' : SessionInfo),
        opPre op reg → reg i = some s → s.status = .attention →
        hubStep reg op i = some s' → s'.status = .active →
        op = .opClearAttention i) ∧
    (∀ (reg : Registry) (i : String) (now : Nat) (s : SessionInfo),
        reg i = some s →
        hubStep reg (.opHeartbeat i now) i =
          some { s with lastSeen := now,
                        status := if s.status = .idle then .active
                                  else s.status }) ∧
    (∀ (reg : Registry) (i : String) (now : Nat) (s : SessionInfo),
        reg i = some s → s.status = .attention →
        hubStep reg (.opHeartbeat i now) i =
          some { s with lastSeen := now }) := by
  have hbeat : ∀ (reg : Registry) (i : String) (now : Nat)
      (s : SessionInfo), reg i = some s →
      hubStep reg (.opHeartbeat i now) i =
        some { s with lastSeen := now,
                      status := if s.status = .idle then .active
                                else s.status } := by
    intro reg i now s hs
    simp [hubStep, updateLastSeen, hs]
  refine ⟨?_, hbeat, ?_⟩
  · intro reg op i s s' hpre hs hatt hstep hact
    cases op with
    | opRegister id' nm pt tk ag cw pd nw =>
      simp only [opPre] at hpre
      by_cases hii : i = id'
      · subst hii
        rw [hs] at hpre
        cases hpre
      · simp only [hubStep, register, if_neg hii] at hstep
        rw [hs] at hstep
        cases hstep
        rw [hatt] at hact
        cases hact
    | opUnregister id' =>
      by_cases hii : i = id'
      · subst hii
        simp [hubStep, unregister] at hstep
      · simp only [hubStep, unregister, if_neg hii] at hstep
        rw [hs] at hstep
        cases hstep
        rw [hatt] at hact
        cases hact
    | opRename id' nm =>
      rcases hq : reg id' with _ | s2
      · simp only [hubStep, rename, hq] at hstep
        rw [hs] at hstep
        cases hstep
        rw [hatt] at hact
        cases hact
      · by_cases hii : i = id'
        · subst hii
          rw [hq] at hs
          cases hs
          simp only [hubStep, rename, hq, if_pos rfl] at hstep
          cases hstep
          rw [hatt] at hact
          cases hact
        · simp only [hubStep, rename, hq, if_neg hii] at hstep
          rw [hs] at hstep
          cases hstep
          rw [hatt] at hact
          cases hact
    | opHeartbeat id' nw =>
      rcases hq : reg id' with _ | s2
      · simp only [hubStep, updateLastSeen, hq] at hstep
        rw [hs] at hstep
        cases hstep
        rw [hatt] at hact
        cases hact
      · by_cases hii : i = id'
        · subst hii
          rw [hq] at hs
          cases hs
          simp only [hubStep, updateLastSeen, hq, if_pos rfl] at hstep
          cases hstep
          rw [hatt] at hact
          simp [hatt] at hact
        · simp only [hubStep, updateLastSeen, hq, if_neg hii] at hstep
          rw [hs] at hstep
          cases hstep
          rw [hatt] at hact
          cases hact
    | opClearAttention id' =>
      rcases hq : reg id' with _ | s2
      · simp only [hubStep, hq] at hstep
        rw [hs] at hstep
        cases hstep
        rw [hatt] at hact
        cases hact
      · by_cases hii : i = id'
        · subst hii
          rfl
        · simp only [hubStep, hq] at hstep
          by_cases h2 : s2.status = .attention
          · simp only [if_pos h2, updateStatus, hq, if_neg hii] at hstep
            rw [hs] at hstep
            cases hstep
            rw [hatt] at hact
            cases hact
          · simp only [if_neg h2] at hstep
            rw [hs] at hstep
            cases hstep
            rw [hatt] at hact
            cases hact
    | opAttentionSignal id' =>
      rcases hq : reg id' with _ | s2
      · simp only [hubStep, hq] at hstep
        rw [hs] at hstep
        cases hstep
        rw [hatt] at hact
        cases hact
      · by_cases h2 : s2.status = .attention
        · simp only [hubStep, hq, if_pos h2] at hstep
          rw [hs] at hstep
          cases hstep
          rw [hatt] at hact
          cases hact
        · by_cases hii : i = id'
          · subst hii
            rw [hq] at hs
            cases hs
            exact absurd hatt h2
          · simp only [hubStep, hq, if_neg h2, updateStatus,
              if_neg hii] at hstep
            rw [hs] at hstep
            cases hstep
            rw [hatt] at hact
            cases hact
    | opSweep nw alive =>
      simp only [hubStep, healthSweep, hs] at hstep
      rw [show ((some s).bind (sweepSession nw alive)) =
            sweepSession nw alive s from rfl] at hstep
      simp only [sweepSession] at hstep
      by_cases hrec : nw - s.lastSeen ≤ 20000
      · rw [if_pos hrec] at hstep
        cases hstep
        rw [hatt] at hact
        cases hact
      · rw [if_neg hrec] at hstep
        by_cases hal : alive s.pid
        · rw [if_pos hal] at hstep
          by_cases hcond : 30000 < nw - s.lastSeen ∧ s.status = .active
          · rw [hatt] at hcond
            simp at hcond
          · rw [if_neg hcond] at hstep
            cases hstep
            rw [hatt] at hact
            cases hact
        · simp only [hal, Bool.false_eq_true, if_false] at hstep
          cases hstep
  · intro reg i now s hs hatt
    rw [hbeat reg i now s hs, hatt]
    simp

/-- Witness for C3: the explicit clear on an attention session, and a
heartbeat leaving an attention session in attention. -/
theorem c3_attention_cleared_only_explicitly_witness :
    (HubOp.opClearAttention "deadbeefdeadbeef" =
      HubOp.opClearAttention "deadbeefdeadbeef") ∧
    hubStep attnReg (.opHeartbeat "deadbeefdeadbeef" 2000)
        "deadbeefdeadbeef" =
      some { attnSession with lastSeen := 2000 } :=
  ⟨c3_attention_cleared_only_explicitly.1 attnReg
      (.opClearAttention "deadbeefdeadbeef") "deadbeefdeadbeef"
      attnSession { attnSession with status := .active } trivial rfl rfl
      (by decide) rfl,
   c3_attention_cleared_only_explicitly.2.2 attnReg "deadbeefdeadbeef"
      2000 attnSession rfl rfl⟩

theorem framesFrom_getElem (chunks : List (List Char)) :
    ∀ (base i : Nat), (framesFrom base chunks)[i]? =
      (chunks[i]?).map
        (fun d => DataFrame.mk d (base + sumLens (chunks.take (i + 1)))) := by
  induction chunks with
  | nil => intro base i; simp [framesFrom]
  | cons d rest ih =>
    intro base i
    cases i with
    | zero => simp [framesFrom, sumLens]
    | succ i =>
      simp only [framesFrom, List.getElem?_cons_succ, List.take_succ_cons]
      rw [ih (base + d.length) i]
      cases rest[i]? with
      | none => simp
      | some e =>
        simp [sumLens]
        omega

theorem framesFrom_seq_gt (chunks : List (List Char)) :
    ∀ (base : Nat) (f : DataFrame), f ∈ framesFrom base chunks →
      (∀ d ∈ chunks, d ≠ []) → base < f.seq := by
  induction chunks with
  | nil => intro base f hf _; simp [framesFrom] at hf
  | cons d rest ih =>
    intro base f hf hne
    simp only [framesFrom, List.mem_cons] at hf
    rcases hf with hf | hf
    · subst hf
      have : d ≠ [] := hne d (by simp)
      have : 0 < d.length := List.length_pos.mpr this
      simp
      omega
    · have := ih (base + d.length) f hf (fun e he => hne e (by simp [he]))
      omega

theorem framesFrom_seq_pairwise (chunks : List (List Char)) :
    ∀ (base : Nat), (∀ d ∈ chunks, d ≠ []) →
      ((framesFrom base chunks).map DataFrame.seq).Pairwise (· < ·) := by
  induction chunks with
  | nil => intro base _; simp [framesFrom]
  | cons d rest ih =>
    intro base hne
    simp only [framesFrom, List.map_cons, List.pairwise_cons]
    constructor
    · intro x hx
      simp only [List.mem_map] at hx
      obtain ⟨f, hf, hfx⟩ := hx
      subst hfx
      exact framesFrom_seq_gt rest (base + d.length) f hf
        (fun e he => hne e (by simp [he]))
    · exact ih (base + d.length) (fun e he => hne e (by simp [he]))

/-- C1: every PTY output chunk is forwarded as a `data` frame carrying a
`seq` equal to the cumulative character count up to and including that
frame; the `seq` values of the emitted stream are strictly increasing, and
so are those of the frame subsequence any client receives. -/
theorem c1_data_frames_cumulative_seq (chunks : List (List Char))
    (hne : ∀ d ∈ chunks, d ≠ []) :
    ((emitFrames chunks).map DataFrame.seq).Pairwise (· < ·) ∧
    (∀ recv : List DataFrame, recv.Sublist (emitFrames chunks) →
      ((recv.map DataFrame.seq).Pairwise (· < ·))) ∧
    (∀ i : Nat, (emitFrames chunks)[i]? =
      (chunks[i]?).map
        (fun d => DataFrame.mk d (sumLens (chunks.take (i + 1))))) := by
  have hpw := framesFrom_seq_pairwise chunks 0 hne
  refine ⟨hpw, ?_, ?_⟩
  · intro recv hsub
    exact List.Pairwise.sublist (hsub.map DataFrame.seq) hpw
  · intro i
    have := framesFrom_getElem chunks 0 i
    simpa [emitFrames] using this

/-- Witness for C1 at a concrete pair of chunks. -/
theorem c1_data_frames_cumulative_seq_witness :
    (∀ d ∈ [['h', 'i'], ['!']], d ≠ []) ∧
    ((emitFrames [['h', 'i'], ['!']]).map DataFrame.seq).Pairwise
      (· < ·) ∧
    (emitFrames [['h', 'i'], ['!']])[1]? = some (DataFrame.mk ['!'] 3) :=
  ⟨by decide,
   (c1_data_frames_cumulative_seq [['h', 'i'], ['!']] (by decide)).1,
   by
    rw [(c1_data_frames_cumulative_seq [['h', 'i'], ['!']]
      (by decide)).2.2 1]
    decide⟩

theorem takeRightL_append_absorb (n : Nat) (a d : List Char) :
    takeRightL n (takeRightL n a ++ d) = takeRightL n (a ++ d) := by
  simp only [takeRightL, List.drop_append_eq_append_drop, List.length_drop,
    List.length_append]
  by_cases h : a.length ≤ n
  · have h0 : a.length - n = 0 := by omega
    simp [h0]
  · have h1 : a.length - (a.length - n) = n := by omega
    rw [h1]
    have h2 : (a.drop (a.length - n)).length = n := by
      simp [List.length_drop]
      omega
    rw [List.drop_drop]
    congr 1
    · congr 1
      omega
    · congr 1
      omega

theorem sbFromChunks_foldl (chunks : List (List Char)) :
    ∀ (a : List Char) (t : Nat),
      chunks.foldl sbFeed ⟨takeRightL SCROLLBACK_MAX a, t⟩ =
        ⟨takeRightL SCROLLBACK_MAX (a ++ chunks.flatten),
          t + chunks.flatten.length⟩ := by
  induction chunks with
  | nil => intro a t; simp
  | cons d rest ih =>
    intro a t
    simp only [List.foldl_cons, sbFeed, takeRightL_append_absorb]
    rw [ih (a ++ d) (t + d.length)]
    simp only [List.flatten_cons, ← List.append_assoc, List.length_append,
      Scrollback.mk.injEq]
    exact ⟨trivial, by omega⟩

theorem sbFromChunks_spec (chunks : List (List Char)) :
    sbFromChunks chunks =
      ⟨takeRightL SCROLLBACK_MAX chunks.flatten, chunks.flatten.length⟩ := by
  have h := sbFromChunks_foldl chunks [] 0
  rw [show takeRightL SCROLLBACK_MAX ([] : List Char) = [] from rfl,
    List.nil_append, Nat.zero_add] at h
  exact h

set_option maxRecDepth 4000 in
theorem resumeReply_drop (L : List Char) (k : Nat) (hk : k ≤ L.length)
    (hkeep : L.length - SCROLLBACK_MAX ≤ k) :
    resumeReply ⟨List.drop (L.length - SCROLLBACK_MAX) L, L.length⟩ k =
      L.drop k := by
  have hML : (List.drop (L.length - SCROLLBACK_MAX) L).length =
      L.length - (L.length - SCROLLBACK_MAX) :=
    List.length_drop (L.length - SCROLLBACK_MAX) L
  unfold resumeReply
  dsimp only
  rw [hML, if_pos (by omega), List.drop_drop]
  have harith : L.length - SCROLLBACK_MAX +
      (L.length - (L.length - SCROLLBACK_MAX) - (L.length - k)) = k := by
    omega
  rw [harith]

/-- C2: a client that reconnects with `resume{lastSeq:k}` receives exactly
the characters emitted between sequence numbers `k+1` and the current
tail, provided `k` is at least the tail minus the 50 000-character
scrollback capacity. -/
theorem c2_resume_delta_sync (chunks : List (List Char)) (k : Nat)
    (hk : k ≤ chunks.flatten.length)
    (hkeep : chunks.flatten.length - SCROLLBACK_MAX ≤ k) :
    resumeReply (sbFromChunks chunks) k = chunks.flatten.drop k := by
  rw [sbFromChunks_spec]
  exact resumeReply_drop chunks.flatten k hk hkeep

/-- Witness for C2: three chunks, resuming from sequence number 2. -/
theorem c2_resume_delta_sync_witness :
    2 ≤ ([['a', 'b'], ['c'], ['d', 'e']] : List (List Char)).flatten.length ∧
    resumeReply (sbFromChunks [['a', 'b'], ['c'], ['d', 'e']]) 2 =
      ['c', 'd', 'e'] := by
  refine ⟨by decide, ?_⟩
  rw [c2_resume_delta_sync [['a', 'b'], ['c'], ['d', 'e']] 2 (by decide)
    (by decide)]
  decide

theorem rl_other_ip (s : RLTable) (X Y : String) (tok : Bool) (t : Nat)
    (hne : Y ≠ X) : (processRequest s X tok t).2 Y = s Y := by
  rcases hq : s X with _ | e <;>
    simp [processRequest, isBlockedStep, hq, recordFailure, clearIP,
      hne] <;>
    split_ifs <;>
    simp [clearIP, hne]

theorem rl_response_own_entry (s s' : RLTable) (Y : String) (tok : Bool)
    (t : Nat) (h : s Y = s' Y) :
    (processRequest s Y tok t).1 = (processRequest s' Y tok t).1 := by
  rcases hq : s' Y with _ | e <;> rw [hq] at h <;>
    simp only [processRequest, isBlockedStep, h, hq] <;>
    split_ifs <;> rfl

/-- C5: five failed token comparisons from an IP stamp a 60-second block;
while the block lasts every request from that IP answers 429 even with the
correct token; a successful comparison (when not blocked) clears the IP's
entry; and requests from any other IP neither observe nor disturb the
blocked IP's state. -/
theorem c5_rate_limiter_blocks (s0 s1 s2 s3 s4 s5 : RLTable) (X : String)
    (t1 t2 t3 t4 t5 : Nat) (h0 : s0 X = none)
    (e1 : s1 = (processRequest s0 X false t1).2)
    (e2 : s2 = (processRequest s1 X false t2).2)
    (e3 : s3 = (processRequest s2 X false t3).2)
    (e4 : s4 = (processRequest s3 X false t4).2)
    (e5 : s5 = (processRequest s4 X false t5).2) :
    s5 X = some ⟨5, t5 + RL_BLOCK_MS⟩ ∧
    (∀ (t : Nat) (tok : Bool), t < t5 + RL_BLOCK_MS →
      (processRequest s5 X tok t).1 = .tooMany) ∧
    (∀ (s : RLTable) (ip : String) (t : Nat),
      (isBlockedStep s ip t).1 = false →
      (processRequest s ip true t).2 ip = none) ∧
    (∀ Y, Y ≠ X → s5 Y = s0 Y) ∧
    (∀ (Y : String) (tok : Bool) (t : Nat), Y ≠ X →
      (processRequest s5 Y tok t).1 = (processRequest s0 Y tok t).1) := by
  have l1 : s1 X = some ⟨1, 0⟩ := by
    subst e1
    simp [processRequest, isBlockedStep, h0, recordFailure, RL_MAX_ATTEMPTS]
  have l2 : s2 X = some ⟨2, 0⟩ := by
    subst e2
    simp [processRequest, isBlockedStep, l1, recordFailure, RL_MAX_ATTEMPTS]
  have l3 : s3 X = some ⟨3, 0⟩ := by
    subst e3
    simp [processRequest, isBlockedStep, l2, recordFailure, RL_MAX_ATTEMPTS]
  have l4 : s4 X = some ⟨4, 0⟩ := by
    subst e4
    simp [processRequest, isBlockedStep, l3, recordFailure, RL_MAX_ATTEMPTS]
  have l5 : s5 X = some ⟨5, t5 + RL_BLOCK_MS⟩ := by
    subst e5
    simp [processRequest, isBlockedStep, l4, recordFailure, RL_MAX_ATTEMPTS]
  refine ⟨l5, ?_, ?_, ?_, ?_⟩
  · intro t tok hlt
    simp [processRequest, isBlockedStep, l5, hlt]
  · intro s ip t hnb
    simp only [processRequest]
    rw [hnb]
    simp [clearIP]
  · intro Y hne
    subst e5; subst e4; subst e3; subst e2; subst e1
    rw [rl_other_ip _ X Y false t5 hne, rl_other_ip _ X Y false t4 hne,
      rl_other_ip _ X Y false t3 hne, rl_other_ip _ X Y false t2 hne,
      rl_other_ip _ X Y false t1 hne]
  · intro Y tok t hne
    apply rl_response_own_entry
    subst e5; subst e4; subst e3; subst e2; subst e1
    rw [rl_other_ip _ X Y false t5 hne, rl_other_ip _ X Y false t4 hne,
      rl_other_ip _ X Y false t3 hne, rl_other_ip _ X Y false t2 hne,
      rl_other_ip _ X Y false t1 hne]

/-- Witness for C5: the block after five concrete failures, and the 429
for a correct-token request inside the block window. -/
theorem c5_rate_limiter_blocks_witness :
    (let s1 := (processRequest rlEmpty "10.0.0.2" false 10).2
     let s2 := (processRequest s1 "10.0.0.2" false 20).2
     let s3 := (processRequest s2 "10.0.0.2" false 30).2
     let s4 := (processRequest s3 "10.0.0.2" false 40).2
     let s5 := (processRequest s4 "10.0.0.2" false 50).2
     s5 "10.0.0.2" = some ⟨5, 50 + RL_BLOCK_MS⟩ ∧
       (processRequest s5 "10.0.0.2" true 1000).1 = .tooMany) := by
  have h := c5_rate_limiter_blocks rlEmpty
    (processRequest rlEmpty "10.0.0.2" false 10).2
    ((processRequest (processRequest rlEmpty "10.0.0.2" false 10).2
        "10.0.0.2" false 20).2)
    ((processRequest ((processRequest
        (processRequest rlEmpty "10.0.0.2" false 10).2
        "10.0.0.2" false 20).2) "10.0.0.2" false 30).2)
    ((processRequest ((processRequest ((processRequest
        (processRequest rlEmpty "10.0.0.2" false 10).2
        "10.0.0.2" false 20).2) "10.0.0.2" false 30).2)
        "10.0.0.2" false 40).2)
    ((processRequest ((processRequest ((processRequest ((processRequest
        (processRequest rlEmpty "10.0.0.2" false 10).2
        "10.0.0.2" false 20).2) "10.0.0.2" false 30).2)
        "10.0.0.2" false 40).2) "10.0.0.2" false 50).2)
    "10.0.0.2" 10 20 30 40 50 rfl rfl rfl rfl rfl rfl
  exact ⟨h.1, h.2.1 1000 true (by decide)⟩

/-- C7 counterexample: a single 81-character line is stored as its first
80 characters followed by `...`, a stored line of 83 characters — the
claim bounds every stored line by 80 characters. -/
theorem c7_counterexample :
    (handleData initPreview (List.replicate 81 'a' ++ ['\n'])).lines =
      [List.replicate 80 'a' ++ ['.', '.', '.']] ∧
    ∃ l ∈ (handleData initPreview
        (List.replicate 81 'a' ++ ['\n'])).lines, 80 < l.length := by
  refine ⟨by decide, ?_⟩
  refine ⟨List.replicate 80 'a' ++ ['.', '.', '.'], by decide, by decide⟩

theorem processLine_preserves (lines : List (List Char))
    (line : List Char)
    (h : ∀ l ∈ lines, l ≠ [] ∧ l.length ≤ 83 ∧
      (l.length ≤ 80 ∨ (l.length = 83 ∧ l.drop 80 = ['.', '.', '.']))) :
    ∀ l ∈ processLine lines line, l ≠ [] ∧ l.length ≤ 83 ∧
      (l.length ≤ 80 ∨ (l.length = 83 ∧ l.drop 80 = ['.', '.', '.'])) := by
  intro l hl
  simp only [processLine] at hl
  split at hl
  case isTrue hpos =>
    rw [List.mem_append] at hl
    rcases hl with hl | hl
    · exact h l hl
    · rw [List.mem_singleton] at hl
      subst hl
      split
      case isTrue hlong =>
        have htl : (List.take MAX_LINE_LENGTH (trimEnd line)).length =
            MAX_LINE_LENGTH := by
          rw [List.length_take]
          simp only [MAX_LINE_LENGTH] at hlong ⊢
          omega
        refine ⟨by simp, ?_, Or.inr ⟨?_, ?_⟩⟩
        · rw [List.length_append, htl]
          decide
        · rw [List.length_append, htl]
          decide
        · have h80 : (80 : Nat) = (List.take MAX_LINE_LENGTH
              (trimEnd line)).length := by
            rw [htl]
            rfl
          rw [h80, List.drop_left]
      case isFalse hshort =>
        refine ⟨?_, ?_, Or.inl ?_⟩
        · intro hemp
          rw [hemp] at hpos
          simp at hpos
        · simp only [MAX_LINE_LENGTH] at hshort
          omega
        · simp only [MAX_LINE_LENGTH] at hshort
          omega
  case isFalse =>
    exact h l hl

theorem foldl_processLine_preserves (ls : List (List Char)) :
    ∀ (lines : List (List Char)),
      (∀ l ∈ lines, l ≠ [] ∧ l.length ≤ 83 ∧
        (l.length ≤ 80 ∨ (l.length = 83 ∧ l.drop 80 = ['.', '.', '.']))) →
      ∀ l ∈ ls.foldl processLine lines, l ≠ [] ∧ l.length ≤ 83 ∧
        (l.length ≤ 80 ∨ (l.length = 83 ∧ l.drop 80 = ['.', '.', '.'])) := by
  induction ls with
  | nil => intro lines h; exact h
  | cons a rest ih =>
    intro lines h
    exact ih (processLine lines a) (processLine_preserves lines a h)

/-- C7 amended: after every data frame the preview buffer holds at most 5
lines, none empty after the trailing-whitespace trim, each at most 83
characters: a line longer than 80 characters is stored as its first 80
characters followed by the `...` suffix (83 characters in all), all other
lines verbatim (at most 80 characters). -/
theorem c7_preview_buffer_bounds (st : PreviewState) (data : List Char)
    (h : previewInv st) : previewInv (handleData st data) := by
  obtain ⟨hlen, hmem⟩ := h
  constructor
  · simp only [handleData]
    split
    case isTrue hgt =>
      rw [List.length_drop]
      omega
    case isFalse hle =>
      simp only [MAX_PREVIEW_LINES] at hle ⊢
      omega
  · intro l hl
    simp only [handleData] at hl
    have hmem2 : l ∈ (((st.rawBuffer ++ stripAnsi data).splitOn
        '\n').dropLast).foldl processLine st.lines := by
      split at hl
      · exact List.mem_of_mem_drop hl
      · exact hl
    exact foldl_processLine_preserves _ st.lines hmem l hmem2

/-- Witness for C7 amended: the invariant holds for the empty state and is
kept by a concrete frame containing an over-long line. -/
theorem c7_preview_buffer_bounds_witness :
    previewInv initPreview ∧
      previewInv (handleData initPreview
        (List.replicate 81 'a' ++ ['\n'])) :=
  ⟨by simp [previewInv, initPreview],
   c7_preview_buffer_bounds initPreview
     (List.replicate 81 'a' ++ ['\n'])
     (by simp [previewInv, initPreview])⟩

theorem osc9At_ne_esc (c : Char) (t : List Char) (h : c ≠ '\x1b') :
    osc9At (c :: t) = false := by
  rcases t with _ | ⟨c2, t⟩
  · rfl
  rcases t with _ | ⟨c3, t⟩
  · rfl
  rcases t with _ | ⟨c4, t⟩
  · rfl
  simp [osc9At, h]

theorem osc9At_ne_bracket (c1 c2 : Char) (t : List Char)
    (h : c2 ≠ ']') : osc9At (c1 :: c2 :: t) = false := by
  rcases t with _ | ⟨c3, t⟩
  · rfl
  rcases t with _ | ⟨c4, t⟩
  · rfl
  simp [osc9At, h]

theorem osc99At_ne_esc (c : Char) (t : List Char) (h : c ≠ '\x1b') :
    osc99At (c :: t) = false := by
  rcases t with _ | ⟨c2, t⟩
  · rfl
  rcases t with _ | ⟨c3, t⟩
  · rfl
  rcases t with _ | ⟨c4, t⟩
  · rfl
  rcases t with _ | ⟨c5, t⟩
  · rfl
  simp [osc99At, h]

theorem osc99At_ne_bracket (c1 c2 : Char) (t : List Char)
    (h : c2 ≠ ']') : osc99At (c1 :: c2 :: t) = false := by
  rcases t with _ | ⟨c3, t⟩
  · rfl
  rcases t with _ | ⟨c4, t⟩
  · rfl
  rcases t with _ | ⟨c5, t⟩
  · rfl
  simp [osc99At, h]

theorem osc777At_ne_esc (c : Char) (t : List Char) (h : c ≠ '\x1b') :
    osc777At (c :: t) = false := by
  rcases t with _ | ⟨c2, t⟩
  · rfl
  rcases t with _ | ⟨c3, t⟩
  · rfl
  rcases t with _ | ⟨c4, t⟩
  · rfl
  rcases t with _ | ⟨c5, t⟩
  · rfl
  rcases t with _ | ⟨c6, t⟩
  · rfl
  simp [osc777At, h]

theorem osc777At_ne_bracket (c1 c2 : Char) (t : List Char)
    (h : c2 ≠ ']') : osc777At (c1 :: c2 :: t) = false := by
  rcases t with _ | ⟨c3, t⟩
  · rfl
  rcases t with _ | ⟨c4, t⟩
  · rfl
  rcases t with _ | ⟨c5, t⟩
  · rfl
  rcases t with _ | ⟨c6, t⟩
  · rfl
  simp [osc777At, h]

theorem scanAny_cons (p : List Char → Bool) (c : Char) (t : List Char) :
    scanAny p (c :: t) = (p (c :: t) || scanAny p t) := rfl

theorem scanAny_append_nonEsc (p : List Char → Bool)
    (hp : ∀ (c : Char) (t : List Char), c ≠ '\x1b' → p (c :: t) = false)
    (xs : List Char) (hxs : ∀ c ∈ xs, c ≠ '\x1b') (r : List Char) :
    scanAny p (xs ++ r) = scanAny p r := by
  induction xs with
  | nil => rfl
  | cons x xs ih =>
    rw [List.cons_append, scanAny_cons,
      hp x (xs ++ r) (hxs x (by simp)), ih (fun c hc => hxs c (by simp [hc]))]
    simp

theorem scanAny_append_right (p : List Char → Bool) (u v : List Char)
    (h : scanAny p v = true) : scanAny p (u ++ v) = true := by
  induction u with
  | nil => exact h
  | cons x xs ih =>
    rw [List.cons_append, scanAny_cons, ih]
    simp

theorem scanAny_term_false (p : List Char → Bool)
    (hp : ∀ (c : Char) (t : List Char), c ≠ '\x1b' → p (c :: t) = false)
    (hp2 : ∀ (c1 c2 : Char) (t : List Char), c2 ≠ ']' →
      p (c1 :: c2 :: t) = false)
    (term t : List Char)
    (hterm : term = ['\x07'] ∨ term = ['\x1b', '\\'])
    (h : scanAny p t = false) : scanAny p (term ++ t) = false := by
  rcases hterm with ht | ht <;> subst ht
  · rw [List.cons_append, List.nil_append, scanAny_cons,
      hp '\x07' t (by decide), h]
    rfl
  · rw [List.cons_append, List.cons_append, List.nil_append, scanAny_cons,
      hp2 '\x1b' '\\' t (by decide), scanAny_cons,
      hp '\\' t (by decide), h]
    rfl

theorem stripOscAux_cons_none (c : Char) (t : List Char)
    (h : c ≠ '\x1b') :
    stripOscAux (c :: t) none = c :: stripOscAux t none := by
  rw [stripOscAux.eq_def]
  split
  all_goals simp_all

theorem stripOscAux_cons_some (c : Char) (t acc : List Char)
    (h1 : c ≠ '\x1b') (h2 : c ≠ '\x07') :
    stripOscAux (c :: t) (some acc) = stripOscAux t (some (c :: acc)) := by
  rw [stripOscAux.eq_def]
  split
  all_goals simp_all

theorem stripOscAux_body (xs : List Char) :
    ∀ (acc r : List Char), (∀ c ∈ xs, c ≠ '\x1b' ∧ c ≠ '\x07') →
      stripOscAux (xs ++ r) (some acc) =
        stripOscAux r (some (xs.reverse ++ acc)) := by
  induction xs with
  | nil => intro acc r _; rfl
  | cons x xs ih =>
    intro acc r hxs
    rw [List.cons_append,
      stripOscAux_cons_some x (xs ++ r) acc (hxs x (by simp)).1
        (hxs x (by simp)).2,
      ih (x :: acc) r (fun c hc => hxs c (by simp [hc]))]
    simp

theorem stripOscAux_oscClosed {u : List Char} (hu : OscClosed u) :
    ∀ w, ∃ p, stripOscAux (u ++ w) none = p ++ stripOscAux w none := by
  induction hu with
  | nil => intro w; exact ⟨[], rfl⟩
  | plain c t hc _ ih =>
    intro w
    obtain ⟨p, hp⟩ := ih w
    refine ⟨c :: p, ?_⟩
    rw [List.cons_append, stripOscAux_cons_none c (t ++ w) hc, hp,
      List.cons_append]
  | osc body term t hbody hterm _ ih =>
    intro w
    obtain ⟨p, hp⟩ := ih w
    refine ⟨p, ?_⟩
    rw [List.cons_append, List.cons_append]
    rw [show (body ++ (term ++ t)) ++ w = body ++ (term ++ (t ++ w)) by
      simp [List.append_assoc]]
    rw [show stripOscAux ('\x1b' :: ']' :: (body ++ (term ++ (t ++ w))))
          none =
        stripOscAux (body ++ (term ++ (t ++ w))) (some []) from rfl]
    rw [stripOscAux_body body [] (term ++ (t ++ w)) hbody]
    rcases hterm with ht | ht <;> subst ht
    · rw [show (['\x07'] : List Char) ++ (t ++ w) = '\x07' :: (t ++ w)
        from rfl]
      rw [show stripOscAux ('\x07' :: (t ++ w))
            (some (body.reverse ++ [])) = stripOscAux (t ++ w) none
          from rfl]
      exact hp
    · rw [show (['\x1b', '\\'] : List Char) ++ (t ++ w) =
          '\x1b' :: '\\' :: (t ++ w) from rfl]
      rw [show stripOscAux ('\x1b' :: '\\' :: (t ++ w))
            (some (body.reverse ++ [])) = stripOscAux (t ++ w) none
          from rfl]
      exact hp

theorem progOnly_no_bel {s : List Char} (hs : ProgOnly s) :
    '\x07' ∉ stripOscAux s none := by
  induction hs with
  | nil => simp [stripOscAux]
  | plain c t hc hcb _ ih =>
    rw [stripOscAux_cons_none c t hc]
    simp only [List.mem_cons]
    rintro (h | h)
    · exact hcb h.symm
    · exact ih h
  | frame body term t hbody hterm _ ih =>
    rw [show stripOscAux ('\x1b' :: ']' :: '9' :: ';' :: '4' :: ';' ::
          (body ++ (term ++ t))) none =
        stripOscAux ('9' :: ';' :: '4' :: ';' :: (body ++ (term ++ t)))
          (some []) from rfl]
    rw [show ('9' :: ';' :: '4' :: ';' :: (body ++ (term ++ t))) =
        ('9' :: ';' :: '4' :: ';' :: body) ++ (term ++ t) by simp]
    rw [stripOscAux_body ('9' :: ';' :: '4' :: ';' :: body) [] (term ++ t)
      (by
        intro c hc
        simp only [List.mem_cons] at hc
        rcases hc with h | h | h | h | h
        · subst h; exact ⟨by decide, by decide⟩
        · subst h; exact ⟨by decide, by decide⟩
        · subst h; exact ⟨by decide, by decide⟩
        · subst h; exact ⟨by decide, by decide⟩
        · exact hbody c h)]
    rcases hterm with ht | ht <;> subst ht
    · rw [show (['\x07'] : List Char) ++ t = '\x07' :: t from rfl]
      rw [show stripOscAux ('\x07' :: t)
          (some (('9' :: ';' :: '4' :: ';' :: body).reverse ++ [])) =
          stripOscAux t none from rfl]
      exact ih
    · rw [show (['\x1b', '\\'] : List Char) ++ t =
          '\x1b' :: '\\' :: t from rfl]
      rw [show stripOscAux ('\x1b' :: '\\' :: t)
          (some (('9' :: ';' :: '4' :: ';' :: body).reverse ++ [])) =
          stripOscAux t none from rfl]
      exact ih

theorem progOnly_frame_ne_esc (body : List Char)
    (hbody : ∀ c ∈ body, c ≠ '\x1b' ∧ c ≠ '\x07') :
    ∀ c ∈ (']' :: '9' :: ';' :: '4' :: ';' :: body), c ≠ '\x1b' := by
  intro c hc
  simp only [List.mem_cons] at hc
  rcases hc with h | h | h | h | h | h
  · subst h; decide
  · subst h; decide
  · subst h; decide
  · subst h; decide
  · subst h; decide
  · exact (hbody c h).1

theorem progOnly_osc9_false {s : List Char} (hs : ProgOnly s) :
    scanAny osc9At s = false := by
  induction hs with
  | nil => rfl
  | plain c t hc _ _ ih =>
    rw [scanAny_cons, osc9At_ne_esc c t hc, ih]
    rfl
  | frame body term t hbody hterm _ ih =>
    rw [scanAny_cons]
    rw [show osc9At ('\x1b' :: ']' :: '9' :: ';' :: '4' :: ';' ::
        (body ++ (term ++ t))) = false by simp [osc9At, isProgTail]]
    rw [show (']' :: '9' :: ';' :: '4' :: ';' :: (body ++ (term ++ t))) =
        (']' :: '9' :: ';' :: '4' :: ';' :: body) ++ (term ++ t) by simp]
    rw [scanAny_append_nonEsc osc9At osc9At_ne_esc _
      (progOnly_frame_ne_esc body hbody) (term ++ t)]
    rw [scanAny_term_false osc9At osc9At_ne_esc osc9At_ne_bracket
      term t hterm ih]
    rfl

theorem progOnly_osc99_false {s : List Char} (hs : ProgOnly s) :
    scanAny osc99At s = false := by
  induction hs with
  | nil => rfl
  | plain c t hc _ _ ih =>
    rw [scanAny_cons, osc99At_ne_esc c t hc, ih]
    rfl
  | frame body term t hbody hterm _ ih =>
    rw [scanAny_cons]
    rw [show osc99At ('\x1b' :: ']' :: '9' :: ';' :: '4' :: ';' ::
        (body ++ (term ++ t))) = false by simp [osc99At]]
    rw [show (']' :: '9' :: ';' :: '4' :: ';' :: (body ++ (term ++ t))) =
        (']' :: '9' :: ';' :: '4' :: ';' :: body) ++ (term ++ t) by simp]
    rw [scanAny_append_nonEsc osc99At osc99At_ne_esc _
      (progOnly_frame_ne_esc body hbody) (term ++ t)]
    rw [scanAny_term_false osc99At osc99At_ne_esc osc99At_ne_bracket
      term t hterm ih]
    rfl

theorem progOnly_osc777_false {s : List Char} (hs : ProgOnly s) :
    scanAny osc777At s = false := by
  induction hs with
  | nil => rfl
  | plain c t hc _ _ ih =>
    rw [scanAny_cons, osc777At_ne_esc c t hc, ih]
    rfl
  | frame body term t hbody hterm _ ih =>
    rw [scanAny_cons]
    rw [show osc777At ('\x1b' :: ']' :: '9' :: ';' :: '4' :: ';' ::
        (body ++ (term ++ t))) = false by simp [osc777At]]
    rw [show (']' :: '9' :: ';' :: '4' :: ';' :: (body ++ (term ++ t))) =
        (']' :: '9' :: ';' :: '4' :: ';' :: body) ++ (term ++ t) by simp]
    rw [scanAny_append_nonEsc osc777At osc777At_ne_esc _
      (progOnly_frame_ne_esc body hbody) (term ++ t)]
    rw [scanAny_term_false osc777At osc777At_ne_esc osc777At_ne_bracket
      term t hterm ih]
    rfl

/-- C6: a byte string of iTerm progress-bar frames and plain non-ESC,
non-BEL characters never triggers the attention detector; any non-progress
OSC 9 opener, any OSC 99, any OSC 777, and any BEL outside the complete
OSC sequences of a prefix each trigger it. -/
theorem c6_attention_detector :
    (∀ s, ProgOnly s → containsAttentionSignal s = false) ∧
    (∀ u v, isProgTail v = false →
      containsAttentionSignal
        (u ++ '\x1b' :: ']' :: '9' :: ';' :: v) = true) ∧
    (∀ u v, containsAttentionSignal
      (u ++ '\x1b' :: ']' :: '9' :: '9' :: ';' :: v) = true) ∧
    (∀ u v, containsAttentionSignal
      (u ++ '\x1b' :: ']' :: '7' :: '7' :: '7' :: ';' :: v) = true) ∧
    (∀ u v, OscClosed u →
      containsAttentionSignal (u ++ '\x07' :: v) = true) := by
  refine ⟨?_, ?_, ?_, ?_, ?_⟩
  · intro s hs
    have h4 := progOnly_no_bel hs
    simp [containsAttentionSignal, hasOsc9NonProgress, hasOsc99,
      hasOsc777, stripOscList, progOnly_osc9_false hs,
      progOnly_osc99_false hs, progOnly_osc777_false hs, h4]
  · intro u v hv
    have h1 : scanAny osc9At (u ++ '\x1b' :: ']' :: '9' :: ';' :: v) =
        true := by
      apply scanAny_append_right
      rw [scanAny_cons]
      rw [show osc9At ('\x1b' :: ']' :: '9' :: ';' :: v) = true by
        simp [osc9At, hv]]
      rfl
    simp [containsAttentionSignal, hasOsc9NonProgress, h1]
  · intro u v
    have h1 : scanAny osc99At
        (u ++ '\x1b' :: ']' :: '9' :: '9' :: ';' :: v) = true := by
      apply scanAny_append_right
      rw [scanAny_cons]
      rw [show osc99At ('\x1b' :: ']' :: '9' :: '9' :: ';' :: v) = true by
        simp [osc99At]]
      rfl
    simp [containsAttentionSignal, hasOsc99, h1]
  · intro u v
    have h1 : scanAny osc777At
        (u ++ '\x1b' :: ']' :: '7' :: '7' :: '7' :: ';' :: v) = true := by
      apply scanAny_append_right
      rw [scanAny_cons]
      rw [show osc777At
          ('\x1b' :: ']' :: '7' :: '7' :: '7' :: ';' :: v) = true by
        simp [osc777At]]
      rfl
    simp [containsAttentionSignal, hasOsc777, h1]
  · intro u v hu
    obtain ⟨p, hp⟩ := stripOscAux_oscClosed hu ('\x07' :: v)
    have hb : '\x07' ∈ stripOscAux (u ++ '\x07' :: v) none := by
      rw [hp, stripOscAux_cons_none '\x07' v (by decide)]
      simp
    simp [containsAttentionSignal, stripOscList, hb]

/-- Witness for C6: a progress-only string is quiet; a non-progress OSC 9
and a standalone BEL each raise the signal. -/
theorem c6_attention_detector_witness :
    containsAttentionSignal ('x' :: '\x1b' :: ']' :: '9' :: ';' :: '4' ::
      ';' :: (['5', '0'] ++ (['\x1b', '\\'] ++ ['y']))) = false ∧
    containsAttentionSignal ([] ++ '\x1b' :: ']' :: '9' :: ';' :: ['n']) =
      true ∧
    containsAttentionSignal (['h', 'i'] ++ '\x07' :: []) = true := by
  refine ⟨?_, ?_, ?_⟩
  · exact c6_attention_detector.1 _
      (ProgOnly.plain 'x' _ (by decide) (by decide)
        (ProgOnly.frame ['5', '0'] ['\x1b', '\\'] ['y'] (by decide)
          (Or.inr rfl)
          (ProgOnly.plain 'y' [] (by decide) (by decide) ProgOnly.nil)))
  · exact c6_attention_detector.2.1 [] ['n'] (by decide)
  · exact c6_attention_detector.2.2.2.2 ['h', 'i'] []
      (OscClosed.plain 'h' _ (by decide)
        (OscClosed.plain 'i' [] (by decide) OscClosed.nil))

end ItWillSync
